import Mathlib

/-!
Verification of the DataTable builder
(`packages/melt/src/lib/builders/DataTable.svelte.ts`).

The table engine is embedded shallowly: row cell values become an inductive
`Value` type (JS `null`/`undefined` collapse to `vnull`, since the source only
ever tests them with `== null`), rows become association lists, and the
mutable class fields that the claims touch (`#sortBy`, `#sortDirection`,
`#page`, `#pageSize`, `#columnWidths`, `#focusedCell`) become a `TableState`
record threaded explicitly.  The `MaybeGetter` props are resolved values at
read time (`extract`), so a fixed `Props` record models one evaluation
environment.  JS `Array.prototype.sort` with a comparator is modelled by a
stable insertion sort (`sortRows`): ECMAScript guarantees sort stability, and
for the comparator orderings exercised by the claims a stable sort is
determined up to the guarantees the spec appeals to.
-/

namespace DataTableSpec

open scoped List

/-- Cell values stored in a row.  `vnull` stands for both JS `null` and
`undefined`, which the source code only distinguishes via `== null` (never
`===`), so they are observationally equal in every code path modelled here. -/
inductive Value where
  | vnull : Value
  | vint : Int → Value
  | vstr : String → Value
deriving DecidableEq

/-- Rows are externally supplied records; the engine only reads
`row[column.accessor]`, so an association list of field name to value
suffices. -/
abbrev Row := List (String × Value)

/-- Reading `row[accessor]`: a missing key yields JS `undefined`, which is
`vnull` in this model. -/
def getField (r : Row) (k : String) : Value :=
  (r.lookup k).getD Value.vnull

/-- Non-null sort directions; the source type `SortDirection` is
`"asc" | "desc" | null`, modelled as `Option SortDir`. -/
inductive SortDir where
  | asc : SortDir
  | desc : SortDir
deriving DecidableEq

/-- Column configuration (`DataTableColumn<T>`).  Optional fields keep their
three-valued nature (`none` = absent/undefined) where the code distinguishes
it: `resizable` is checked with `=== false`, widths default with `??`. -/
structure Column where
  id : String
  label : String := ""
  accessor : String
  sortable : Bool := false
  sortFn : Option (Row → Row → Option SortDir → Int) := none
  width : Option String := none
  resizable : Option Bool := none
  minWidth : Option Int := none
  maxWidth : Option Int := none

/-- The props a DataTable evaluation reads through `extract`: the raw data
array, the column list, and the feature toggles with their source defaults. -/
structure Props where
  data : List Row
  columns : List Column
  pagination : Bool := false
  resizableColumns : Bool := true
  keyboardNavigation : Bool := true

/-- Mutable table state: the `Synced` cells (self-owned case) and the plain
private fields of the class. -/
structure TableState where
  sortBy : Option String := none
  sortDirection : Option SortDir := none
  page : Int := 1
  pageSize : Int := 10
  columnWidths : List (String × Int) := []
  focusedCell : Option (Int × Int) := none

/-- The column lookup `this.columns.find((col) => col.id === columnId)`. -/
def findColumn (cols : List Column) (cid : String) : Option Column :=
  cols.find? (fun col => col.id == cid)

/-- Source `#getNextSortDirection`: asc → desc → null → asc. -/
def getNextSortDirection : Option SortDir → Option SortDir
  | some SortDir.asc => some SortDir.desc
  | some SortDir.desc => none
  | none => some SortDir.asc

/-- Source `toggleSort(columnId)`.  Note that when the direction cycles from
`desc` to `null`, only `sortDirection` is written; `sortBy` keeps its value. -/
def toggleSort (p : Props) (st : TableState) (cid : String) : TableState :=
  match findColumn p.columns cid with
  | none => st
  | some col =>
    if col.sortable = false then st
    else if st.sortBy ≠ some cid then
      { st with sortBy := some cid, sortDirection := some SortDir.asc }
    else
      { st with sortDirection := getNextSortDirection st.sortDirection }

/-- Locale-aware string comparison `a.localeCompare(b)`, modelled as the
lexicographic order on strings (a fixed total order standing in for the
ambient locale collation). -/
def localeCompare (a b : String) : Int :=
  match compare a b with
  | Ordering.lt => -1
  | Ordering.eq => 0
  | Ordering.gt => 1

/-- JS `ToNumber` coercion for the values of this model, used by the abstract
relational comparison: `null` coerces to 0, a numeric string parses, a
non-numeric string is NaN (`none`). -/
def toNum : Value → Option Int
  | Value.vnull => some 0
  | Value.vint n => some n
  | Value.vstr s => s.toInt?

/-- JS `a < b` (abstract relational comparison) on model values: two strings
compare lexicographically, otherwise both sides coerce to numbers and any NaN
makes the comparison false. -/
def jsLt : Value → Value → Bool
  | Value.vstr a, Value.vstr b => a < b
  | a, b =>
    match toNum a, toNum b with
    | some m, some n => m < n
    | _, _ => false

/-- Test used by the source comparator guard `aValue == null`. -/
def isNullVal : Value → Bool
  | Value.vnull => true
  | _ => false

/-- The generic comparator body of `#getSortedData` for a column without a
custom `sortFn`: null/undefined first in asc and last in desc, both-string
pairs via `localeCompare`, everything else via the JS `<` / `>` operators. -/
def genericCompare (col : Column) (dir : SortDir) (a b : Row) : Int :=
  let aV := getField a col.accessor
  let bV := getField b col.accessor
  if isNullVal aV then (if dir = SortDir.asc then -1 else 1)
  else if isNullVal bV then (if dir = SortDir.asc then 1 else -1)
  else
    match aV, bV with
    | Value.vstr s1, Value.vstr s2 =>
      if dir = SortDir.asc then localeCompare s1 s2 else localeCompare s2 s1
    | _, _ =>
      if dir = SortDir.asc then
        (if jsLt aV bV then -1 else if jsLt bV aV then 1 else 0)
      else
        (if jsLt aV bV then 1 else if jsLt bV aV then -1 else 0)

/-- The comparator passed to `sort`: the custom `column.sortFn` when present
(receiving the current non-null direction as the source does), else the
generic comparison. -/
def cmpRows (col : Column) (dir : SortDir) (a b : Row) : Int :=
  match col.sortFn with
  | some f => f a b (some dir)
  | none => genericCompare col dir a b

/-- Stable insertion step: `x` is placed before the first element `y` with
`le x y`, exactly where a stable comparison sort puts an element that
preceded the whole tail in the input. -/
def insertRow (le : Row → Row → Bool) (x : Row) : List Row → List Row
  | [] => [x]
  | y :: ys => if le x y then x :: y :: ys else y :: insertRow le x ys

/-- Stable sort modelling `array.sort(cmp)` (ECMAScript sort is stable). -/
def sortRows (le : Row → Row → Bool) : List Row → List Row
  | [] => []
  | x :: xs => insertRow le x (sortRows le xs)

/-- Source `#getSortedData`: a fresh copy of the data when no sort is active
(note `!this.sortBy` is also true for the empty string, a JS falsy value) or
when the sort column is unknown; otherwise the copy is sorted with the
effective comparator. -/
def getSortedData (p : Props) (st : TableState) (l : List Row) : List Row :=
  match st.sortBy, st.sortDirection with
  | some sb, some dir =>
    if sb = "" then l
    else
      match findColumn p.columns sb with
      | none => l
      | some col => sortRows (fun a b => cmpRows col dir a b ≤ 0) l
  | _, _ => l

/-- JS `Array.prototype.slice(s, e)`: negative indices are relative to the
end, and both bounds are clamped to `[0, length]`. -/
def jsSlice (l : List Row) (s e : Int) : List Row :=
  let len : Int := l.length
  let s1 := if s < 0 then max (len + s) 0 else min s len
  let e1 := if e < 0 then max (len + e) 0 else min e len
  (l.take e1.toNat).drop s1.toNat

/-- The `data` getter: sort the full raw data, then slice the current page
when pagination is enabled. -/
def dataGetter (p : Props) (st : TableState) : List Row :=
  let sorted := getSortedData p st p.data
  if p.pagination = false then sorted
  else
    let start := (st.page - 1) * st.pageSize
    jsSlice sorted start (start + st.pageSize)

/-- The `totalPages` getter: 1 when pagination is off, else
`Math.ceil(rawLength / pageSize) || 1`.  The integer formula
`(len + ps - 1) / ps` is the exact ceiling for `ps ≥ 1`; a non-positive
`pageSize` is outside the modelled domain (the data model constrains
`pageSize ≥ 1`) and is mapped to the defensive result 1. -/
def totalPagesVal (pagination : Bool) (len : Nat) (ps : Int) : Int :=
  if pagination = false then 1
  else if ps < 1 then 1
  else
    let t := ((len : Int) + ps - 1) / ps
    if t = 0 then 1 else t

/-- The `totalPages` getter applied to a full evaluation environment. -/
def totalPages (p : Props) (st : TableState) : Int :=
  totalPagesVal p.pagination p.data.length st.pageSize

/-- Source `nextPage`. -/
def nextPage (p : Props) (st : TableState) : TableState :=
  if st.page < totalPages p st then { st with page := st.page + 1 } else st

/-- Source `prevPage`. -/
def prevPage (p : Props) (st : TableState) : TableState :=
  if st.page > 1 then { st with page := st.page - 1 } else st

/-- Source `goToPage`. -/
def goToPage (p : Props) (st : TableState) (n : Int) : TableState :=
  if 1 ≤ n ∧ n ≤ totalPages p st then { st with page := n } else st

/-- One pagination interaction, for reasoning about call sequences. -/
inductive PageOp where
  | next : PageOp
  | prev : PageOp
  | goto : Int → PageOp

/-- Apply one pagination interaction. -/
def applyPageOp (p : Props) (st : TableState) : PageOp → TableState
  | PageOp.next => nextPage p st
  | PageOp.prev => prevPage p st
  | PageOp.goto n => goToPage p st n

/-- Apply a sequence of pagination interactions, first element first. -/
def applyPageOps (p : Props) (st : TableState) : List PageOp → TableState
  | [] => st
  | op :: ops => applyPageOps p (applyPageOp p st op) ops

/-- The `aria-sort` attribute computed by `getHeaderCell`:
`column.id === this.sortBy ? (this.sortDirection === "asc" ? "ascending" :
"descending") : undefined`.  Every non-`asc` direction on the sorted column,
including `null`, yields `"descending"`. -/
def ariaSort (st : TableState) (col : Column) : Option String :=
  if st.sortBy = some col.id then
    (if st.sortDirection = some SortDir.asc then some "ascending"
     else some "descending")
  else none

/-- Update of the `#columnWidths` map at one key (`Map.set`). -/
def setWidth (m : List (String × Int)) (k : String) (v : Int) :
    List (String × Int) :=
  if (m.lookup k).isSome then
    m.map (fun kv => if kv.1 = k then (k, v) else kv)
  else m ++ [(k, v)]

/-- Source `resizeColumn(columnId, width)`.  Returns the new state together
with the `onColumnResize` notification it issues (`none` when the call is a
no-op).  `Math.min(maxWidth, width)` with the default `maxWidth = Infinity`
leaves `width` unchanged, hence the `Option Int` model of `maxWidth`. -/
def resizeColumn (p : Props) (st : TableState) (cid : String) (w : Int) :
    TableState × Option (String × Int) :=
  match findColumn p.columns cid with
  | none => (st, none)
  | some col =>
    if col.resizable = some false ∨ p.resizableColumns = false then (st, none)
    else
      let minW := col.minWidth.getD 50
      let upper := match col.maxWidth with
        | none => w
        | some mx => min mx w
      let constrained := max minW upper
      ({ st with columnWidths := setWidth st.columnWidths cid constrained },
       some (cid, constrained))

/-- Source `#moveFocus(rowIndex, colIndex)` without the deferred DOM focus
transfer: clamp against `this.data.length - 1` (the paginated row count) and
`this.columns.length - 1`, in the order of the source `if` statements, then
store the focused cell. -/
def moveFocus (p : Props) (st : TableState) (r c : Int) : TableState :=
  let maxRowIndex : Int := (dataGetter p st).length - 1
  let maxColIndex : Int := p.columns.length - 1
  let r1 := if r < 0 then 0 else r
  let r2 := if r1 > maxRowIndex then maxRowIndex else r1
  let c1 := if c < 0 then 0 else c
  let c2 := if c1 > maxColIndex then maxColIndex else c1
  { st with focusedCell := some (r2, c2) }

/-- The four arrow keys handled by the `onkeydown` of `getCell`. -/
inductive ArrowKey where
  | up : ArrowKey
  | down : ArrowKey
  | left : ArrowKey
  | right : ArrowKey

/-- The `onkeydown` handler of `getCell(rowIndex, colIndex)` restricted to
arrow keys: a no-op when keyboard navigation is off, else `#moveFocus` at the
neighbour index. -/
def cellArrowKeydown (p : Props) (st : TableState) (r c : Int) :
    ArrowKey → TableState
  | ArrowKey.up => if p.keyboardNavigation then moveFocus p st (r - 1) c else st
  | ArrowKey.down => if p.keyboardNavigation then moveFocus p st (r + 1) c else st
  | ArrowKey.left => if p.keyboardNavigation then moveFocus p st r (c - 1) else st
  | ArrowKey.right => if p.keyboardNavigation then moveFocus p st r (c + 1) else st

/-!
Heap model for the frame property (claim about non-mutation of the caller
array).  JS arrays are references into a heap; `[...data]` allocates a fresh
array and `Array.prototype.sort` mutates its receiver in place.  The heap maps
array ids to contents; allocation uses the next fresh id.
-/

/-- A heap of JS arrays: contents by id, plus the next fresh id. -/
structure Heap where
  arrays : Nat → List Row
  next : Nat

/-- Allocate a fresh array holding `contents`, returning the heap and its id. -/
def allocArray (h : Heap) (contents : List Row) : Heap × Nat :=
  ({ arrays := fun i => if i = h.next then contents else h.arrays i,
     next := h.next + 1 }, h.next)

/-- Overwrite the contents of array `i` (an in-place mutation such as
`sort`). -/
def writeArray (h : Heap) (i : Nat) (contents : List Row) : Heap :=
  { h with arrays := fun j => if j = i then contents else h.arrays j }

/-- Heap-level `#getSortedData`: spread the source array into a fresh copy,
then, when a sort is active on a known column, sort that copy in place. -/
def getSortedDataH (p : Props) (st : TableState) (h : Heap) (src : Nat) :
    Heap × Nat :=
  let copied := allocArray h (h.arrays src)
  let h1 := copied.1
  let cid := copied.2
  match st.sortBy, st.sortDirection with
  | some sb, some dir =>
    if sb = "" then (h1, cid)
    else
      match findColumn p.columns sb with
      | none => (h1, cid)
      | some col =>
        (writeArray h1 cid
          (sortRows (fun a b => cmpRows col dir a b ≤ 0) (h1.arrays cid)), cid)
  | _, _ => (h1, cid)

/-- Heap-level `data` getter: sort (into a fresh array), then `slice` — which
allocates another fresh array — when pagination is enabled. -/
def dataGetterH (p : Props) (st : TableState) (h : Heap) (src : Nat) :
    Heap × Nat :=
  let sortedRes := getSortedDataH p st h src
  let h1 := sortedRes.1
  let sid := sortedRes.2
  if p.pagination = false then (h1, sid)
  else
    let start := (st.page - 1) * st.pageSize
    allocArray h1 (jsSlice (h1.arrays sid) start (start + st.pageSize))

/-- Interactions of the frame claim: reads of the `data` getter, sort
toggles, and page navigation. -/
inductive Act where
  | readData : Act
  | toggle : String → Act
  | pageNext : Act
  | pagePrev : Act
  | pageGoto : Int → Act

/-- One interaction step on the combined heap/table state; `src` is the id of
the caller-owned data array. -/
def stepAct (p : Props) (src : Nat) : Heap × TableState → Act → Heap × TableState
  | (h, st), Act.readData => ((dataGetterH p st h src).1, st)
  | (h, st), Act.toggle cid => (h, toggleSort p st cid)
  | (h, st), Act.pageNext => (h, nextPage p st)
  | (h, st), Act.pagePrev => (h, prevPage p st)
  | (h, st), Act.pageGoto n => (h, goToPage p st n)

/-- Run a sequence of interactions, first element first. -/
def runActs (p : Props) (src : Nat) (s : Heap × TableState) :
    List Act → Heap × TableState
  | [] => s
  | a :: as => runActs p src (stepAct p src s a) as

/-!
Concrete fixtures used by witnesses and counterexamples.
-/

/-- A sortable column over accessor `age`. -/
def ageColumn : Column := { id := "age", accessor := "age", sortable := true }

/-- Props exposing only the `age` column. -/
def ageProps : Props := { data := [], columns := [ageColumn] }

/-- The state a freshly constructed table starts in (all `Synced` defaults). -/
def initialState : TableState := {}

/-- A row whose `k` field is null, tagged 1 to keep it distinguishable. -/
def nullRowA : Row := [("k", Value.vnull), ("t", Value.vint 1)]

/-- A second null-keyed row, tagged 2. -/
def nullRowB : Row := [("k", Value.vnull), ("t", Value.vint 2)]

/-- A row with the integer 7 at `k`. -/
def intRow7 : Row := [("k", Value.vint 7)]

/-- A sortable column over accessor `k` with the generic comparator. -/
def keyColumn : Column := { id := "k", accessor := "k", sortable := true }

/-- Props over the two null-keyed rows and the `k` column. -/
def keyProps : Props := { data := [nullRowA, nullRowB], columns := [keyColumn] }

/-- State sorting descending on `k`. -/
def descState : TableState :=
  { sortBy := some "k", sortDirection := some SortDir.desc }

/-- State sorting ascending on `k`. -/
def ascState : TableState :=
  { sortBy := some "k", sortDirection := some SortDir.asc }

/-- The claim side of the totalPages formula, following the spec words
`max(1, ceil(rawLength / pageSize))`; for `ps ≥ 1` the integer expression
`(len + ps - 1) / ps` is exactly that ceiling. -/
def claimTotalPages (len : Nat) (ps : Int) : Int :=
  max 1 (((len : Int) + ps - 1) / ps)

/-!
Claim C3.
-/

/-- C3 counterexample: with pagination disabled (a state the claim's
quantification includes), two rows and `pageSize = 1`, the getter returns 1
while the claimed formula gives 2. -/
theorem C3_counterexample :
    totalPages { data := [nullRowA, nullRowB], columns := [keyColumn],
                 pagination := false } { pageSize := 1 } = 1 ∧
    claimTotalPages 2 1 = 2 ∧ (1 : Int) ≠ 2 := by
  decide

/-- C3 (amended): whenever pagination is enabled and `pageSize ≥ 1`, the
`totalPages` getter returns `max(1, ceil(rawLength / pageSize))`; with
pagination disabled it returns 1 instead. -/
theorem C3_totalPages (p : Props) (st : TableState)
    (hpag : p.pagination = true) (hps : 1 ≤ st.pageSize) :
    totalPages p st = claimTotalPages p.data.length st.pageSize := by
  have hnlt : ¬ st.pageSize < 1 := by omega
  have ht : 0 ≤ ((p.data.length : Int) + st.pageSize - 1) / st.pageSize :=
    Int.ediv_nonneg (by omega) (by omega)
  simp only [totalPages, totalPagesVal, claimTotalPages, hpag, hnlt, if_false,
    Bool.true_eq_false, if_neg, ite_false]
  split <;> omega

/-- C3 witness: 10 rows, `pageSize = 4`, pagination on: both sides are 3. -/
theorem C3_witness :
    ({ data := [nullRowA, nullRowB, intRow7, nullRowA, nullRowB, intRow7,
                nullRowA, nullRowB, intRow7, nullRowA],
       columns := [keyColumn], pagination := true } : Props).pagination = true ∧
    (1 : Int) ≤ ({ pageSize := 4 } : TableState).pageSize ∧
    totalPages { data := [nullRowA, nullRowB, intRow7, nullRowA, nullRowB,
                          intRow7, nullRowA, nullRowB, intRow7, nullRowA],
                 columns := [keyColumn], pagination := true }
        { pageSize := 4 } =
      claimTotalPages 10 4 :=
  ⟨rfl, by decide, C3_totalPages _ _ rfl (by decide)⟩

/-!
Claim C7.
-/

/-- Page navigation never changes the page size. -/
theorem pageSize_applyPageOp (p : Props) (st : TableState) (op : PageOp) :
    (applyPageOp p st op).pageSize = st.pageSize := by
  cases op <;> simp only [applyPageOp, nextPage, prevPage, goToPage] <;>
    split <;> rfl

/-- `totalPages` only reads `pageSize` from the state, so page navigation
leaves it fixed. -/
theorem totalPages_applyPageOp (p : Props) (st : TableState) (op : PageOp) :
    totalPages p (applyPageOp p st op) = totalPages p st := by
  simp only [totalPages, pageSize_applyPageOp]

/-- One navigation step keeps an in-range page in range. -/
theorem applyPageOp_page_bounds (p : Props) (st : TableState) (op : PageOp)
    (h1 : 1 ≤ st.page) (h2 : st.page ≤ totalPages p st) :
    1 ≤ (applyPageOp p st op).page ∧
      (applyPageOp p st op).page ≤ totalPages p st := by
  cases op <;> simp only [applyPageOp, nextPage, prevPage, goToPage] <;>
    split <;> (try simp) <;> omega

/-- Any sequence of navigation steps keeps an in-range page in range. -/
theorem applyPageOps_page_bounds (p : Props) :
    ∀ (ops : List PageOp) (st : TableState), 1 ≤ st.page →
      st.page ≤ totalPages p st →
      1 ≤ (applyPageOps p st ops).page ∧
        (applyPageOps p st ops).page ≤ totalPages p (applyPageOps p st ops)
  | [], st, h1, h2 => ⟨h1, h2⟩
  | op :: ops, st, h1, h2 => by
    have hb := applyPageOp_page_bounds p st op h1 h2
    have ht := totalPages_applyPageOp p st op
    exact applyPageOps_page_bounds p ops (applyPageOp p st op) hb.1
      (ht ▸ hb.2)

/-- C7: `goToPage` is a silent no-op outside `[1, totalPages]`, `nextPage` is
a no-op at or beyond the last page, `prevPage` is a no-op at or below page 1,
and from any page in `[1, totalPages]` no sequence of navigation calls leaves
that interval. -/
theorem C7_page_navigation (p : Props) (st : TableState) :
    (∀ n : Int, n < 1 ∨ totalPages p st < n → goToPage p st n = st) ∧
    (totalPages p st ≤ st.page → nextPage p st = st) ∧
    (st.page ≤ 1 → prevPage p st = st) ∧
    (1 ≤ st.page → st.page ≤ totalPages p st →
      ∀ ops : List PageOp,
        1 ≤ (applyPageOps p st ops).page ∧
          (applyPageOps p st ops).page ≤ totalPages p (applyPageOps p st ops)) := by
  refine ⟨?_, ?_, ?_, ?_⟩
  · intro n hn
    simp only [goToPage]
    rw [if_neg]
    omega
  · intro h
    simp only [nextPage]
    rw [if_neg]
    omega
  · intro h
    simp only [prevPage]
    rw [if_neg]
    omega
  · intro h1 h2 ops
    exact applyPageOps_page_bounds p ops st h1 h2

/-- C7 witness: the scenario of the spec — 10 rows, `pageSize = 5`, so 2
pages; from page 1 the sequence next, next, goto 99, prev stays in
`[1, 2]`, and `goToPage 3` is a no-op. -/
theorem C7_witness :
    (let p : Props := { data := [nullRowA, nullRowB, intRow7, nullRowA,
                                 nullRowB, intRow7, nullRowA, nullRowB,
                                 intRow7, nullRowA],
                        columns := [keyColumn], pagination := true };
     let st : TableState := { pageSize := 5 };
     goToPage p st 3 = st ∧
     (1 ≤ (applyPageOps p st [PageOp.next, PageOp.next, PageOp.goto 99,
                              PageOp.prev]).page ∧
      (applyPageOps p st [PageOp.next, PageOp.next, PageOp.goto 99,
                          PageOp.prev]).page ≤
        totalPages p (applyPageOps p st [PageOp.next, PageOp.next,
                                         PageOp.goto 99, PageOp.prev]))) := by
  refine ⟨(C7_page_navigation _ _).1 3 ?_, ?_⟩
  · right
    decide
  · exact (C7_page_navigation _ _).2.2.2 (by decide) (by decide) _


/-!
Claim C5.
-/

/-- Inserting one row grows the length by one. -/
theorem length_insertRow (le : Row → Row → Bool) (x : Row) :
    ∀ t : List Row, (insertRow le x t).length = t.length + 1
  | [] => rfl
  | y :: ys => by
    simp only [insertRow]
    split
    · rfl
    · simp [length_insertRow le x ys]

/-- Sorting preserves the length. -/
theorem length_sortRows (le : Row → Row → Bool) :
    ∀ l : List Row, (sortRows le l).length = l.length
  | [] => rfl
  | x :: xs => by
    simp [sortRows, length_insertRow, length_sortRows le xs]

/-- The sorted view always has the raw length. -/
theorem length_getSortedData (p : Props) (st : TableState) (l : List Row) :
    (getSortedData p st l).length = l.length := by
  simp only [getSortedData]
  split
  · split
    · rfl
    · split
      · rfl
      · exact length_sortRows _ _
  · rfl

/-- Length of a JS slice `[s, s + ps)` with non-negative bounds. -/
theorem length_jsSlice (l : List Row) (s ps : Int) (hs : 0 ≤ s)
    (hps : 0 ≤ ps) :
    ((jsSlice l s (s + ps)).length : Int) =
      min ps (max 0 ((l.length : Int) - s)) := by
  have h1 : ¬ s < 0 := by omega
  have h2 : ¬ s + ps < 0 := by omega
  simp only [jsSlice, h1, h2, if_false, List.length_drop, List.length_take]
  omega

/-- C5: with pagination enabled (page and page size at least 1, per the data
model), the `data` getter is exactly the slice
`[(page-1)*pageSize, page*pageSize)` of the fully sorted data, and its length
is `min(pageSize, max(0, rawLength - (page-1)*pageSize))`; with pagination
disabled it is the full sorted set, of the raw length. -/
theorem C5_data_getter (p : Props) (st : TableState) :
    (p.pagination = true → 1 ≤ st.page → 1 ≤ st.pageSize →
      dataGetter p st =
        jsSlice (getSortedData p st p.data) ((st.page - 1) * st.pageSize)
          (st.page * st.pageSize) ∧
      ((dataGetter p st).length : Int) =
        min st.pageSize
          (max 0 ((p.data.length : Int) - (st.page - 1) * st.pageSize))) ∧
    (p.pagination = false →
      dataGetter p st = getSortedData p st p.data ∧
      (dataGetter p st).length = p.data.length) := by
  constructor
  · intro hpag hpage hps
    have hslice : (st.page - 1) * st.pageSize + st.pageSize =
        st.page * st.pageSize := by ring
    have hgetter : dataGetter p st =
        jsSlice (getSortedData p st p.data) ((st.page - 1) * st.pageSize)
          ((st.page - 1) * st.pageSize + st.pageSize) := by
      simp [dataGetter, hpag]
    constructor
    · rw [hgetter, hslice]
    · rw [hgetter, length_jsSlice _ _ _ (mul_nonneg (by omega) (by omega)) (by omega),
        length_getSortedData]
  · intro hpag
    constructor
    · simp [dataGetter, hpag]
    · simp [dataGetter, hpag, length_getSortedData]

/-- C5 witness: 3 rows, `pageSize = 2`, page 2: the second page is the last
row alone, and the length formula gives 1. -/
theorem C5_witness :
    (let p : Props := { data := [nullRowA, nullRowB, intRow7],
                        columns := [keyColumn], pagination := true };
     let st : TableState := { page := 2, pageSize := 2 };
     p.pagination = true ∧ (1 : Int) ≤ st.page ∧ (1 : Int) ≤ st.pageSize ∧
     (dataGetter p st =
        jsSlice (getSortedData p st p.data) ((st.page - 1) * st.pageSize)
          (st.page * st.pageSize) ∧
      ((dataGetter p st).length : Int) =
        min st.pageSize
          (max 0 ((p.data.length : Int) - (st.page - 1) * st.pageSize)))) :=
  ⟨rfl, by decide, by decide, (C5_data_getter _ _).1 rfl (by decide) (by decide)⟩

/-!
Claim C6.
-/

/-- The width clamp of `resizeColumn`:
`Math.max(minWidth, Math.min(maxWidth, width))` with the source defaults
`minWidth ?? 50` and `maxWidth ?? Infinity`. -/
def clampWidth (col : Column) (w : Int) : Int :=
  max (col.minWidth.getD 50)
    (match col.maxWidth with
     | none => w
     | some mx => min mx w)

/-- Looking a key up after mapping the in-place update over a list that
contains it yields the new value. -/
theorem lookup_map_set (k : String) (v : Int) :
    ∀ m : List (String × Int), (m.lookup k).isSome = true →
      ((m.map (fun kv => if kv.1 = k then (k, v) else kv)).lookup k) = some v
  | [], h => by simp at h
  | (k1, v1) :: m, h => by
    by_cases hk : k1 = k
    · subst hk
      simp
    · have hbeq : (k == k1) = false := by
        simp
        exact Ne.symm hk
      simp only [List.lookup_cons, hbeq] at h
      simp only [List.map_cons, if_neg hk, List.lookup_cons, hbeq]
      exact lookup_map_set k v m h

/-- Looking a key up misses the prefix it is absent from. -/
theorem lookup_append_of_none (k : String) (l : List (String × Int)) :
    ∀ m : List (String × Int), m.lookup k = none →
      ((m ++ l).lookup k) = l.lookup k
  | [], _ => rfl
  | (k1, v1) :: m, h => by
    cases hbeq : (k == k1) with
    | true =>
      rw [List.lookup_cons] at h
      simp [hbeq] at h
    | false =>
      rw [List.lookup_cons] at h
      simp only [hbeq] at h
      rw [List.cons_append, List.lookup_cons]
      simp only [hbeq]
      exact lookup_append_of_none k l m h

/-- Updating the width map stores the new value under the key. -/
theorem lookup_setWidth (m : List (String × Int)) (k : String) (v : Int) :
    (setWidth m k v).lookup k = some v := by
  simp only [setWidth]
  split
  · exact lookup_map_set k v m (by assumption)
  · rename_i h
    have hnone : m.lookup k = none := by
      cases hl : m.lookup k
      · rfl
      · rw [hl] at h
        simp at h
    rw [lookup_append_of_none k [(k, v)] m hnone]
    simp

/-- C6: for a known column that is resizable while resizing is enabled,
`resizeColumn` stores `clamp(w, minWidth, maxWidth)` (defaults 50 and
infinity) and reports exactly that value to the resize callback; for an
unknown column, a non-resizable column, or globally disabled resizing, the
state is untouched and no callback fires. -/
theorem C6_resizeColumn (p : Props) (st : TableState) (cid : String)
    (w : Int) :
    (∀ col, findColumn p.columns cid = some col →
      col.resizable ≠ some false → p.resizableColumns = true →
      (resizeColumn p st cid w).2 = some (cid, clampWidth col w) ∧
      (resizeColumn p st cid w).1.columnWidths.lookup cid =
        some (clampWidth col w) ∧
      (resizeColumn p st cid w).1 =
        { st with columnWidths :=
            setWidth st.columnWidths cid (clampWidth col w) }) ∧
    (findColumn p.columns cid = none → resizeColumn p st cid w = (st, none)) ∧
    (∀ col, findColumn p.columns cid = some col →
      (col.resizable = some false ∨ p.resizableColumns = false) →
      resizeColumn p st cid w = (st, none)) := by
  refine ⟨?_, ?_, ?_⟩
  · intro col hfind hres hglob
    have hcond : ¬ (col.resizable = some false ∨ p.resizableColumns = false) := by
      simp [hres, hglob]
    simp only [resizeColumn, hfind]
    rw [if_neg hcond]
    exact ⟨rfl, lookup_setWidth _ _ _, rfl⟩
  · intro hfind
    simp [resizeColumn, hfind]
  · intro col hfind hcond
    simp only [resizeColumn, hfind]
    rw [if_pos hcond]

/-- Column fixture for the resize scenario of the spec: declared width
`100px`, `minWidth 50`, `maxWidth 200`. -/
def wideColumn : Column :=
  { id := "w", accessor := "w", width := some "100px", minWidth := some 50,
    maxWidth := some 200 }

/-- Props exposing only the resize fixture column. -/
def wideProps : Props := { data := [], columns := [wideColumn] }

/-- C6 witness: a proposal of 500 stores and reports the clamp result, the
clamp result is 200, and with resizing globally disabled the call does
nothing. -/
theorem C6_witness :
    (resizeColumn wideProps initialState "w" 500).2 =
        some ("w", clampWidth wideColumn 500) ∧
    clampWidth wideColumn 500 = 200 ∧
    (resizeColumn wideProps initialState "w" 500).1.columnWidths.lookup "w" =
        some (clampWidth wideColumn 500) ∧
    resizeColumn { wideProps with resizableColumns := false }
        initialState "w" 500 = (initialState, none) := by
  have h := (C6_resizeColumn wideProps initialState "w" 500).1 wideColumn
    rfl (by decide) rfl
  have h2 := (C6_resizeColumn { wideProps with resizableColumns := false }
    initialState "w" 500).2.2 wideColumn rfl (Or.inr rfl)
  exact ⟨h.1, by decide, h.2.1, h2⟩

/-!
Claim C1.
-/

/-- C1 counterexample: three `toggleSort("age")` calls from the initial state
on a known sortable column leave `sortDirection = null` but `sortBy` still
`"age"` — the source never resets `sortBy` when the direction cycles to
null. -/
theorem C1_counterexample :
    (toggleSort ageProps
      (toggleSort ageProps
        (toggleSort ageProps initialState "age") "age") "age").sortDirection
      = none ∧
    (toggleSort ageProps
      (toggleSort ageProps
        (toggleSort ageProps initialState "age") "age") "age").sortBy
      = some "age" ∧
    (toggleSort ageProps
      (toggleSort ageProps
        (toggleSort ageProps initialState "age") "age") "age").sortBy
      ≠ none := by
  refine ⟨rfl, rfl, ?_⟩
  decide

/-- C1 (amended): for a known sortable column, `toggleSort` on a different
current `sortBy` restarts at `(columnId, asc)`; on the same column it
advances the direction along asc → desc → null → asc, and when the direction
cycles to null `sortBy` keeps the column id (it is not reset to null). -/
theorem C1_toggleSort (p : Props) (st : TableState) (cid : String)
    (col : Column) (hfind : findColumn p.columns cid = some col)
    (hsortable : col.sortable = true) :
    (st.sortBy ≠ some cid →
      toggleSort p st cid =
        { st with sortBy := some cid, sortDirection := some SortDir.asc }) ∧
    (st.sortBy = some cid →
      (st.sortDirection = some SortDir.asc →
        toggleSort p st cid =
          { st with sortDirection := some SortDir.desc }) ∧
      (st.sortDirection = some SortDir.desc →
        toggleSort p st cid = { st with sortDirection := none } ∧
        (toggleSort p st cid).sortBy = some cid) ∧
      (st.sortDirection = none →
        toggleSort p st cid =
          { st with sortDirection := some SortDir.asc })) := by
  have hns : ¬ col.sortable = false := by simp [hsortable]
  constructor
  · intro hne
    simp [toggleSort, hfind, hns, hne]
  · intro heq
    have hnne : ¬ st.sortBy ≠ some cid := by simp [heq]
    refine ⟨?_, ?_, ?_⟩ <;> intro hdir <;>
      simp [toggleSort, hfind, hns, hnne, getNextSortDirection, hdir, heq]

/-- C1 witness: from `(sortBy = "age", desc)` a toggle yields direction null
with `sortBy` still `"age"`; from a state sorted on another column a toggle
restarts at `("age", asc)`. -/
theorem C1_witness :
    findColumn ageProps.columns "age" = some ageColumn ∧
    ageColumn.sortable = true ∧
    (toggleSort ageProps
        { initialState with sortBy := some "age",
                            sortDirection := some SortDir.desc } "age" =
      { initialState with sortBy := some "age", sortDirection := none } ∧
     (toggleSort ageProps
        { initialState with sortBy := some "age",
                            sortDirection := some SortDir.desc } "age").sortBy
        = some "age") ∧
    toggleSort ageProps
        { initialState with sortBy := some "other",
                            sortDirection := some SortDir.asc } "age" =
      { initialState with sortBy := some "age",
                          sortDirection := some SortDir.asc } := by
  refine ⟨rfl, rfl, ?_, ?_⟩
  · exact ((C1_toggleSort ageProps _ "age" ageColumn rfl rfl).2 rfl).2.1 rfl
  · exact (C1_toggleSort ageProps _ "age" ageColumn rfl rfl).1 (by decide)

/-!
Claim C2.
-/

/-- C2 counterexample: in the reachable state after three toggles (`sortBy =
"age"`, `sortDirection = null`), `getHeaderCell` emits
`aria-sort="descending"` for that column instead of omitting the
attribute. -/
theorem C2_counterexample :
    (toggleSort ageProps
      (toggleSort ageProps
        (toggleSort ageProps initialState "age") "age") "age").sortDirection
      = none ∧
    ariaSort
      (toggleSort ageProps
        (toggleSort ageProps
          (toggleSort ageProps initialState "age") "age") "age") ageColumn
      = some "descending" ∧
    ariaSort
      (toggleSort ageProps
        (toggleSort ageProps
          (toggleSort ageProps initialState "age") "age") "age") ageColumn
      ≠ none := by
  refine ⟨rfl, rfl, ?_⟩
  decide

/-- C2 (amended): `aria-sort` is `"ascending"` exactly when the column id
equals `sortBy` and the direction is `asc`; it is `"descending"` exactly when
the column id equals `sortBy` and the direction is anything else (`desc` or
null); it is absent exactly when the column id differs from `sortBy`. -/
theorem C2_ariaSort (st : TableState) (col : Column) :
    (ariaSort st col = some "ascending" ↔
      st.sortBy = some col.id ∧ st.sortDirection = some SortDir.asc) ∧
    (ariaSort st col = some "descending" ↔
      st.sortBy = some col.id ∧ st.sortDirection ≠ some SortDir.asc) ∧
    (ariaSort st col = none ↔ st.sortBy ≠ some col.id) := by
  by_cases hsb : st.sortBy = some col.id
  · by_cases hdir : st.sortDirection = some SortDir.asc
    · simp [ariaSort, hsb, hdir]
    · simp [ariaSort, hsb, hdir]
  · simp [ariaSort, hsb]

/-!
Claim C9.
-/

/-- The clamp performed by `#moveFocus` lands in
`[0, rowCount-1] × [0, colCount-1]` whenever both counts are at least 1,
whatever the requested indices. -/
theorem moveFocus_bounds (p : Props) (st : TableState) (r c : Int)
    (hrows : 1 ≤ (dataGetter p st).length) (hcols : 1 ≤ p.columns.length) :
    ∃ r2 c2, (moveFocus p st r c).focusedCell = some (r2, c2) ∧
      0 ≤ r2 ∧ r2 ≤ ((dataGetter p st).length : Int) - 1 ∧
      0 ≤ c2 ∧ c2 ≤ (p.columns.length : Int) - 1 := by
  simp only [moveFocus]
  refine ⟨_, _, rfl, ?_, ?_, ?_, ?_⟩ <;> split <;> (try split) <;> omega

/-- C9: with keyboard navigation on, from any cell of the current page (row
and column counts at least 1), every arrow key press moves the focus cursor
to a cell still inside `[0, rowCount-1] × [0, colCount-1]`. -/
theorem C9_arrow_bounds (p : Props) (st : TableState) (r c : Int)
    (k : ArrowKey) (hkb : p.keyboardNavigation = true)
    (hrows : 1 ≤ (dataGetter p st).length) (hcols : 1 ≤ p.columns.length)
    (hr0 : 0 ≤ r) (hr1 : r ≤ ((dataGetter p st).length : Int) - 1)
    (hc0 : 0 ≤ c) (hc1 : c ≤ (p.columns.length : Int) - 1) :
    ∃ r2 c2, (cellArrowKeydown p st r c k).focusedCell = some (r2, c2) ∧
      0 ≤ r2 ∧ r2 ≤ ((dataGetter p st).length : Int) - 1 ∧
      0 ≤ c2 ∧ c2 ≤ (p.columns.length : Int) - 1 := by
  cases k <;> simp only [cellArrowKeydown, hkb, if_true] <;>
    exact moveFocus_bounds p st _ _ hrows hcols

/-- C9 witness: a 2-row, 1-column page; pressing ArrowDown from cell (1, 0)
stays inside the grid. -/
theorem C9_witness :
    (let p : Props := { data := [nullRowA, nullRowB], columns := [keyColumn] };
     p.keyboardNavigation = true ∧
     1 ≤ (dataGetter p initialState).length ∧
     1 ≤ p.columns.length ∧
     (∃ r2 c2,
        (cellArrowKeydown p initialState 1 0 ArrowKey.down).focusedCell =
          some (r2, c2) ∧
        0 ≤ r2 ∧ r2 ≤ ((dataGetter p initialState).length : Int) - 1 ∧
        0 ≤ c2 ∧ c2 ≤ (p.columns.length : Int) - 1)) :=
  ⟨rfl, by decide, by decide,
    C9_arrow_bounds _ initialState 1 0 ArrowKey.down rfl (by decide)
      (by decide) (by decide) (by decide) (by decide) (by decide)⟩

/-!
Claim C4.
-/

/-- A list is a sublist of itself with one row inserted. -/
theorem sublist_insertRow (le : Row → Row → Bool) (x : Row) :
    ∀ t : List Row, t <+ insertRow le x t
  | [] => List.nil_sublist _
  | y :: ys => by
    by_cases hxy : le x y = true
    · simp only [insertRow, if_pos hxy]
      exact List.sublist_cons_self _ _
    · simp only [insertRow, if_neg hxy]
      exact List.Sublist.cons₂ y (sublist_insertRow le x ys)

/-- The inserted row is in the insertion result. -/
theorem self_mem_insertRow (le : Row → Row → Bool) (x : Row) :
    ∀ t : List Row, x ∈ insertRow le x t
  | [] => by simp [insertRow]
  | y :: ys => by
    by_cases hxy : le x y = true
    · simp [insertRow, if_pos hxy]
    · simp only [insertRow, if_neg hxy, List.mem_cons]
      exact Or.inr (self_mem_insertRow le x ys)

/-- Insertion keeps every previous member. -/
theorem mem_insertRow_of_mem (le : Row → Row → Bool) (x : Row) {z : Row} :
    ∀ t : List Row, z ∈ t → z ∈ insertRow le x t
  | [], h => absurd h (List.not_mem_nil z)
  | y :: ys, h => by
    by_cases hxy : le x y = true
    · simp only [insertRow, if_pos hxy, List.mem_cons]
      exact Or.inr (List.mem_cons.mp h)
    · rcases List.mem_cons.mp h with h2 | h2
      · simp [insertRow, if_neg hxy, h2]
      · simp only [insertRow, if_neg hxy, List.mem_cons]
        exact Or.inr (mem_insertRow_of_mem le x ys h2)

/-- Sorting keeps every member. -/
theorem mem_sortRows (le : Row → Row → Bool) {z : Row} :
    ∀ l : List Row, z ∈ l → z ∈ sortRows le l
  | [], h => absurd h (List.not_mem_nil z)
  | x :: xs, h => by
    rcases List.mem_cons.mp h with h2 | h2
    · subst h2
      exact self_mem_insertRow le z (sortRows le xs)
    · exact mem_insertRow_of_mem le x (sortRows le xs)
        (mem_sortRows le xs h2)

/-- Inserting `a` into a list containing `b`, with `le a b`, keeps `a`
before that occurrence of `b`. -/
theorem insertRow_before (le : Row → Row → Bool) {a b : Row}
    (hle : le a b = true) :
    ∀ t : List Row, b ∈ t → [a, b] <+ insertRow le a t
  | [], hb => absurd hb (List.not_mem_nil b)
  | y :: ys, hb => by
    by_cases hxy : le a y = true
    · simp only [insertRow, if_pos hxy]
      exact List.Sublist.cons₂ a (List.singleton_sublist.mpr hb)
    · simp only [insertRow, if_neg hxy]
      rcases List.mem_cons.mp hb with h2 | h2
      · rw [h2] at hle
        exact absurd hle hxy
      · exact List.Sublist.cons y (insertRow_before le hle ys h2)

/-- Stability of the insertion sort: a pair in input order on which the
comparator answers "first not after second" stays in that order. -/
theorem sortRows_stable (le : Row → Row → Bool) {a b : Row}
    (hle : le a b = true) :
    ∀ l : List Row, [a, b] <+ l → [a, b] <+ sortRows le l
  | [], hab => by simp at hab
  | x :: xs, hab => by
    cases hab with
    | cons _ h =>
      exact (sortRows_stable le hle xs h).trans
        (sublist_insertRow le x (sortRows le xs))
    | cons₂ _ h =>
      exact insertRow_before le hle (sortRows le xs)
        (mem_sortRows le xs (List.singleton_sublist.mp h))

/-- C4 (amended): for an active sort on a known column, any two rows on which
the effective comparator (custom `sortFn` or the generic comparison) returns
0 keep their input order in the sorted view.  Two rows whose key values are
both null are not such a tie: the generic comparator returns -1 on them in
ascending order (order still kept) and 1 in descending order (order
reversed, see the counterexample). -/
theorem C4_stable (p : Props) (st : TableState) (sb : String)
    (dir : SortDir) (col : Column) (l : List Row) (a b : Row)
    (hsb : st.sortBy = some sb) (hne : sb ≠ "")
    (hdir : st.sortDirection = some dir)
    (hfind : findColumn p.columns sb = some col)
    (heq : cmpRows col dir a b = 0) (hab : [a, b] <+ l) :
    [a, b] <+ getSortedData p st l := by
  simp only [getSortedData, hsb, hdir]
  rw [if_neg hne]
  simp only [hfind]
  exact sortRows_stable _ (by simp [heq]) l hab

/-- C4 counterexample: two distinct rows with null key values, descending
sort: the comparator returns 1 on the pair, so the sorted view reverses their
input order — their relative order is not preserved. -/
theorem C4_counterexample :
    getField nullRowA "k" = Value.vnull ∧
    getField nullRowB "k" = Value.vnull ∧
    nullRowA ≠ nullRowB ∧
    [nullRowA, nullRowB] <+ [nullRowA, nullRowB] ∧
    getSortedData keyProps descState [nullRowA, nullRowB] =
      [nullRowB, nullRowA] ∧
    ¬ [nullRowA, nullRowB] <+
        getSortedData keyProps descState [nullRowA, nullRowB] := by
  exact ⟨rfl, rfl, by decide, by decide, rfl, by decide⟩

/-- C4 witness: two rows with equal integer keys separated by a third row;
under an ascending sort the tied pair keeps its input order. -/
theorem C4_witness :
    (let r1 : Row := [("k", Value.vint 5), ("t", Value.vint 1)];
     let r2 : Row := [("k", Value.vint 5), ("t", Value.vint 2)];
     let p : Props := { data := [r1, intRow7, r2], columns := [keyColumn] };
     ascState.sortBy = some "k" ∧ ("k" : String) ≠ "" ∧
     ascState.sortDirection = some SortDir.asc ∧
     findColumn p.columns "k" = some keyColumn ∧
     cmpRows keyColumn SortDir.asc r1 r2 = 0 ∧
     [r1, r2] <+ [r1, intRow7, r2] ∧
     [r1, r2] <+ getSortedData p ascState [r1, intRow7, r2]) := by
  refine ⟨rfl, by decide, rfl, rfl, by decide, by decide, ?_⟩
  exact C4_stable _ ascState "k" SortDir.asc keyColumn _ _ _ rfl (by decide)
    rfl rfl (by decide) (by decide)

/-!
Claim C8.
-/

/-- A row the comparator sends before everything is inserted at the front. -/
theorem insertRow_of_le_all {le : Row → Row → Bool} {x : Row}
    (h : ∀ y, le x y = true) :
    ∀ t : List Row, insertRow le x t = x :: t
  | [] => rfl
  | y :: ys => by simp [insertRow, h y]

/-- A row the comparator sends after everything is inserted at the back. -/
theorem insertRow_of_le_none {le : Row → Row → Bool} {x : Row}
    (h : ∀ y, le x y = false) :
    ∀ t : List Row, insertRow le x t = t ++ [x]
  | [] => rfl
  | y :: ys => by
    have hy : ¬ le x y = true := by simp [h y]
    simp only [insertRow, if_neg hy, List.cons_append]
    rw [insertRow_of_le_none h ys]

/-- Inversion of membership in an insertion result. -/
theorem mem_insertRow_inv (le : Row → Row → Bool) (x z : Row) :
    ∀ t : List Row, z ∈ insertRow le x t → z = x ∨ z ∈ t
  | [], h => by
    simp [insertRow] at h
    exact Or.inl h
  | y :: ys, h => by
    by_cases hxy : le x y = true
    · simp only [insertRow, if_pos hxy] at h
      exact List.mem_cons.mp h
    · simp only [insertRow, if_neg hxy] at h
      rcases List.mem_cons.mp h with h2 | h2
      · exact Or.inr (by simp [h2])
      · rcases mem_insertRow_inv le x z ys h2 with h3 | h3
        · exact Or.inl h3
        · exact Or.inr (by simp [h3])

/-- Rows satisfying `pn` come first and stay first under insertion, provided
the comparator always lets a `pn` row pass (`le = true`) and never lets a
non-`pn` row pass a `pn` row (`le = false`). -/
theorem pairwise_insertRow_firsts {le : Row → Row → Bool} {pn : Row → Bool}
    (hpass : ∀ a b, pn a = true → le a b = true)
    (hblock : ∀ a b, pn a = false → pn b = true → le a b = false) (x : Row) :
    ∀ t : List Row,
      t.Pairwise (fun u v => pn v = true → pn u = true) →
      (insertRow le x t).Pairwise (fun u v => pn v = true → pn u = true) := by
  intro t
  by_cases hx : pn x = true
  · intro hp
    rw [insertRow_of_le_all (fun y => hpass x y hx)]
    exact List.Pairwise.cons (fun y hy hpy => hx) hp
  · have hxf : pn x = false := by
      cases hv : pn x
      · rfl
      · exact absurd hv hx
    induction t with
    | nil =>
      intro hp
      simp [insertRow]
    | cons y ys ih =>
      intro hp
      rcases List.pairwise_cons.mp hp with ⟨hy, hys⟩
      by_cases hxy : le x y = true
      · have hyf : pn y = false := by
          cases hw : pn y
          · rfl
          · exact absurd hxy (by simp [hblock x y hxf hw])
        simp only [insertRow, if_pos hxy]
        refine List.pairwise_cons.mpr ⟨?_, hp⟩
        intro z hz hpz
        rcases List.mem_cons.mp hz with h2 | h2
        · rw [h2] at hpz
          rw [hpz] at hyf
          cases hyf
        · rw [hy z h2 hpz] at hyf
          cases hyf
      · simp only [insertRow, if_neg hxy]
        refine List.pairwise_cons.mpr ⟨?_, ih hys⟩
        intro z hz hpz
        rcases mem_insertRow_inv le x z ys hz with h2 | h2
        · rw [h2] at hpz
          rw [hpz] at hxf
          cases hxf
        · exact hy z h2 hpz

/-- Rows satisfying `pn` come last and stay last under insertion, provided
the comparator never lets a `pn` row pass (`le = false`) and always lets a
non-`pn` row pass a `pn` row (`le = true`). -/
theorem pairwise_insertRow_lasts {le : Row → Row → Bool} {pn : Row → Bool}
    (hstay : ∀ a b, pn a = true → le a b = false)
    (hpass : ∀ a b, pn a = false → pn b = true → le a b = true) (x : Row) :
    ∀ t : List Row,
      t.Pairwise (fun u v => pn u = true → pn v = true) →
      (insertRow le x t).Pairwise (fun u v => pn u = true → pn v = true) := by
  intro t
  by_cases hx : pn x = true
  · intro hp
    rw [insertRow_of_le_none (fun y => hstay x y hx)]
    refine List.pairwise_append.mpr ⟨hp, List.pairwise_singleton _ _, ?_⟩
    intro z hz w hw hpz
    have hwx : w = x := by simpa using hw
    rw [hwx]
    exact hx
  · have hxf : pn x = false := by
      cases hv : pn x
      · rfl
      · exact absurd hv hx
    induction t with
    | nil =>
      intro hp
      simp [insertRow]
    | cons y ys ih =>
      intro hp
      rcases List.pairwise_cons.mp hp with ⟨hy, hys⟩
      by_cases hxy : le x y = true
      · simp only [insertRow, if_pos hxy]
        refine List.pairwise_cons.mpr ⟨?_, hp⟩
        intro z hz hpz
        rw [hpz] at hxf
        cases hxf
      · have hyf : pn y = false := by
          cases hw : pn y
          · rfl
          · exact absurd (hpass x y hxf hw) hxy
        simp only [insertRow, if_neg hxy]
        refine List.pairwise_cons.mpr ⟨?_, ih hys⟩
        intro z hz hpz
        rw [hpz] at hyf
        cases hyf

/-- The sorted list keeps `pn` rows first, under the same comparator facts. -/
theorem pairwise_sortRows_firsts {le : Row → Row → Bool} {pn : Row → Bool}
    (hpass : ∀ a b, pn a = true → le a b = true)
    (hblock : ∀ a b, pn a = false → pn b = true → le a b = false) :
    ∀ l : List Row,
      (sortRows le l).Pairwise (fun u v => pn v = true → pn u = true)
  | [] => List.Pairwise.nil
  | x :: xs =>
    pairwise_insertRow_firsts hpass hblock x (sortRows le xs)
      (pairwise_sortRows_firsts hpass hblock xs)

/-- The sorted list keeps `pn` rows last, under the same comparator facts. -/
theorem pairwise_sortRows_lasts {le : Row → Row → Bool} {pn : Row → Bool}
    (hstay : ∀ a b, pn a = true → le a b = false)
    (hpass : ∀ a b, pn a = false → pn b = true → le a b = true) :
    ∀ l : List Row,
      (sortRows le l).Pairwise (fun u v => pn u = true → pn v = true)
  | [] => List.Pairwise.nil
  | x :: xs =>
    pairwise_insertRow_lasts hstay hpass x (sortRows le xs)
      (pairwise_sortRows_lasts hstay hpass xs)

/-- C8: with an active generic sort (no custom `sortFn`) on a known column,
every row whose key value is null or undefined ends up before every row with
a non-null key value when ascending, and after it when descending; the
comparator is total on such rows, so no error can arise. -/
theorem C8_null_ordering (p : Props) (st : TableState) (sb : String)
    (col : Column) (l : List Row)
    (hsb : st.sortBy = some sb) (hne : sb ≠ "")
    (hfind : findColumn p.columns sb = some col) (hfn : col.sortFn = none) :
    (st.sortDirection = some SortDir.asc →
      (getSortedData p st l).Pairwise
        (fun u v => isNullVal (getField v col.accessor) = true →
          isNullVal (getField u col.accessor) = true)) ∧
    (st.sortDirection = some SortDir.desc →
      (getSortedData p st l).Pairwise
        (fun u v => isNullVal (getField u col.accessor) = true →
          isNullVal (getField v col.accessor) = true)) := by
  constructor
  · intro hdir
    simp only [getSortedData, hsb, hdir]
    rw [if_neg hne]
    simp only [hfind]
    apply pairwise_sortRows_firsts
    · intro a b ha
      simp [cmpRows, hfn, genericCompare, ha]
    · intro a b ha hb
      simp [cmpRows, hfn, genericCompare, ha, hb]
  · intro hdir
    simp only [getSortedData, hsb, hdir]
    rw [if_neg hne]
    simp only [hfind]
    apply pairwise_sortRows_lasts
    · intro a b ha
      simp [cmpRows, hfn, genericCompare, ha]
    · intro a b ha hb
      simp [cmpRows, hfn, genericCompare, ha, hb]

/-- C8 witness: sorting `[intRow7, nullRowA]` ascending on `k` puts the
null-keyed row first. -/
theorem C8_witness :
    ascState.sortBy = some "k" ∧ ("k" : String) ≠ "" ∧
    findColumn keyProps.columns "k" = some keyColumn ∧
    keyColumn.sortFn = none ∧
    ascState.sortDirection = some SortDir.asc ∧
    (getSortedData keyProps ascState [intRow7, nullRowA]).Pairwise
      (fun u v => isNullVal (getField v keyColumn.accessor) = true →
        isNullVal (getField u keyColumn.accessor) = true) :=
  ⟨rfl, by decide, rfl, rfl, rfl,
    (C8_null_ordering keyProps ascState "k" keyColumn [intRow7, nullRowA]
      rfl (by decide) rfl rfl).1 rfl⟩

/-!
Claim C10.
-/

/-- The heap-level sorted view only writes fresh arrays: anything below the
old `next` is untouched and stays below the new `next`. -/
theorem getSortedDataH_frame (p : Props) (st : TableState) (h : Heap)
    (src i : Nat) (hii : i < h.next) :
    (getSortedDataH p st h src).1.arrays i = h.arrays i ∧
    i < (getSortedDataH p st h src).1.next := by
  have hne2 : i ≠ h.next := Nat.ne_of_lt hii
  cases hsb : st.sortBy with
  | none =>
    cases hdir : st.sortDirection <;>
      refine ⟨by simp [getSortedDataH, allocArray, hsb, hne2], ?_⟩ <;>
      simp [getSortedDataH, allocArray, hsb] <;> omega
  | some sb =>
    cases hdir : st.sortDirection with
    | none =>
      refine ⟨by simp [getSortedDataH, allocArray, hsb, hdir, hne2], ?_⟩
      simp [getSortedDataH, allocArray, hsb, hdir]
      omega
    | some dir =>
      by_cases hempty : sb = ""
      · refine ⟨by simp [getSortedDataH, allocArray, hsb, hdir, hempty, hne2],
          ?_⟩
        simp [getSortedDataH, allocArray, hsb, hdir, hempty]
        omega
      · cases hfind : findColumn p.columns sb with
        | none =>
          refine ⟨by simp [getSortedDataH, allocArray, hsb, hdir, hempty,
            hfind, hne2], ?_⟩
          simp [getSortedDataH, allocArray, hsb, hdir, hempty, hfind]
          omega
        | some col =>
          refine ⟨by simp [getSortedDataH, writeArray, allocArray, hsb, hdir,
            hempty, hfind, hne2], ?_⟩
          simp [getSortedDataH, writeArray, allocArray, hsb, hdir, hempty,
            hfind]
          omega

/-- The heap-level `data` getter also only writes fresh arrays. -/
theorem dataGetterH_frame (p : Props) (st : TableState) (h : Heap)
    (src i : Nat) (hii : i < h.next) :
    (dataGetterH p st h src).1.arrays i = h.arrays i ∧
    i < (dataGetterH p st h src).1.next := by
  have hs := getSortedDataH_frame p st h src i hii
  by_cases hpag : p.pagination = false
  · constructor
    · simp only [dataGetterH, hpag, if_pos]
      exact hs.1
    · simp only [dataGetterH, hpag, if_pos]
      exact hs.2
  · have hne3 : i ≠ (getSortedDataH p st h src).1.next := Nat.ne_of_lt hs.2
    constructor
    · simp [dataGetterH, hpag, allocArray, hne3, hs.1]
    · simp [dataGetterH, hpag, allocArray]
      omega

/-- One interaction step neither touches the caller array nor invalidates
the freshness of `next`. -/
theorem stepAct_frame (p : Props) (src : Nat) (h : Heap) (st : TableState)
    (a : Act) (hlt : src < h.next) :
    (stepAct p src (h, st) a).1.arrays src = h.arrays src ∧
    src < (stepAct p src (h, st) a).1.next := by
  cases a with
  | toggle cid => exact ⟨rfl, hlt⟩
  | pageNext => exact ⟨rfl, hlt⟩
  | pagePrev => exact ⟨rfl, hlt⟩
  | pageGoto n => exact ⟨rfl, hlt⟩
  | readData => exact dataGetterH_frame p st h src src hlt

/-- C10: across any sequence of `data` reads, `toggleSort` calls and page
changes, the caller-owned data array keeps the same elements in the same
order — sorting always operates on a spread copy. -/
theorem C10_no_mutation (p : Props) (src : Nat) (h : Heap) (st : TableState)
    (hlt : src < h.next) :
    ∀ acts : List Act,
      (runActs p src (h, st) acts).1.arrays src = h.arrays src := by
  suffices haux : ∀ (acts : List Act) (s : Heap × TableState),
      src < s.1.next →
      (runActs p src s acts).1.arrays src = s.1.arrays src ∧
      src < (runActs p src s acts).1.next by
    intro acts
    exact (haux acts (h, st) hlt).1
  intro acts
  induction acts with
  | nil => exact fun s hs => ⟨rfl, hs⟩
  | cons a as ih =>
    intro s hs
    obtain ⟨hh, sst⟩ := s
    have hstep := stepAct_frame p src hh sst a hs
    have hrest := ih (stepAct p src (hh, sst) a) hstep.2
    simp only [runActs]
    refine ⟨?_, hrest.2⟩
    rw [hrest.1, hstep.1]

/-- C10 witness: a heap holding one caller array at id 0, a toggle, a read
and a page change later the array is unchanged. -/
theorem C10_witness :
    (let h0 : Heap := { arrays := fun i => if i = 0 then [nullRowA, nullRowB]
                                           else [], next := 1 };
     0 < h0.next ∧
     (runActs keyProps 0 (h0, initialState)
        [Act.toggle "k", Act.readData, Act.pageNext]).1.arrays 0 =
       h0.arrays 0) :=
  ⟨by decide,
    C10_no_mutation keyProps 0 _ initialState (by decide)
      [Act.toggle "k", Act.readData, Act.pageNext]⟩
